import Mathlib

/-!
Shallow embedding of `examples/compare.py` (ilo-lang notation benchmark harness)
and verification of its specified properties.

Texts are modelled as `List Char`.  Python string primitives used by the
source (`in`, `str.count`, `str.index`, `str.strip`, `str.splitlines`,
`str.startswith`, `"\n".join`) are embedded below.  `str.strip` is modelled
over the ASCII whitespace characters and `str.splitlines` over the line
boundaries `"\n"`, `"\r"` and `"\r\n"` (the boundaries occurring in the
corpus files and generated text).
-/

namespace IloCompare

/-- Embedding of the prefix test underlying Python `str.startswith`. -/
def isPrefixL : List Char → List Char → Bool
  | [], _ => true
  | _ :: _, [] => false
  | a :: as, b :: bs => a = b && isPrefixL as bs

/-- Embedding of Python substring membership `needle in hay`. -/
def hasSub (needle : List Char) : List Char → Bool
  | [] => isPrefixL needle []
  | c :: t => isPrefixL needle (c :: t) || hasSub needle t

/-- Python `needle in hay` on a `String` needle. -/
def pyIn (s : String) (t : List Char) : Bool := hasSub s.toList t

/-- Helper for `countSub`: scan the haystack counting non-overlapping matches,
skipping `skip` characters after a match (Python `str.count` semantics). -/
def countSubAux (needle : List Char) : List Char → Nat → Nat
  | [], _ => 0
  | c :: t, 0 =>
      if isPrefixL needle (c :: t) then 1 + countSubAux needle t (needle.length - 1)
      else countSubAux needle t 0
  | _ :: t, k + 1 => countSubAux needle t k

/-- Embedding of Python `hay.count(needle)` (non-overlapping occurrences;
an empty needle matches at every position plus the end, as in Python). -/
def countSub (needle hay : List Char) : Nat :=
  if needle.isEmpty then hay.length + 1 else countSubAux needle hay 0

/-- Embedding of Python `hay.index(needle)`/`hay.find(needle)`: the least
index at which `needle` occurs, or `none` when absent (Python `index`
raises `ValueError` in that case). -/
def findSub (needle : List Char) : List Char → Option Nat
  | [] => if isPrefixL needle [] then some 0 else none
  | c :: t =>
      if isPrefixL needle (c :: t) then some 0
      else (findSub needle t).map (· + 1)

/-- ASCII whitespace stripped by Python `str.strip()`. -/
def pyWS (c : Char) : Bool :=
  c = ' ' || c = '\t' || c = '\n' || c = '\r' || c = '\x0b' || c = '\x0c'

/-- Embedding of Python `line.strip()`: remove leading and trailing whitespace. -/
def pyStrip (l : List Char) : List Char :=
  ((l.dropWhile pyWS).reverse.dropWhile pyWS).reverse

/-- Prepend a character to the first line of a line list (helper for `splitOnNL`). -/
def consLine (c : Char) : List (List Char) → List (List Char)
  | [] => [[c]]
  | l :: ls => (c :: l) :: ls

/-- Collapse each `"\r\n"` pair into a single `"\n"` (first phase of
`str.splitlines`). -/
def normCRLF : List Char → List Char
  | [] => []
  | [c] => [c]
  | c :: d :: rest =>
      if c = '\r' && d = '\n' then '\n' :: normCRLF rest
      else c :: normCRLF (d :: rest)

/-- Split on the single-character line boundaries `'\n'` and `'\r'`,
dropping a trailing empty line as Python `str.splitlines` does. -/
def splitOnNL : List Char → List (List Char)
  | [] => []
  | c :: rest =>
      if c = '\n' || c = '\r' then [] :: splitOnNL rest
      else consLine c (splitOnNL rest)

/-- Embedding of Python `text.splitlines()`. -/
def splitlines (t : List Char) : List (List Char) :=
  splitOnNL (normCRLF t)

/-- Embedding of Python `"\n".join(lines)`. -/
def joinLines : List (List Char) → List Char
  | [] => []
  | [l] => l
  | l :: ls => l ++ '\n' :: joinLines ls

/-- The `COMMENT_PREFIXES` dict of `compare.py`: comment-line prefix per
file extension; `.get` returns `none` for unmapped extensions. -/
def COMMENT_PREFIXES (ext : String) : Option (List Char) :=
  if ext = ".ilo" then some ['-', '-']
  else if ext = ".py" then some ['#']
  else if ext = ".yaml" then some ['#']
  else if ext = ".ast" then some [';']
  else none

/-- Embedding of Python `prefix and stripped.startswith(prefix)` from
`strip_comments` (truthiness: `None` and the empty string are falsy). -/
def pfxDrop (pfx : Option (List Char)) (s : List Char) : Bool :=
  match pfx with
  | none => false
  | some p => !p.isEmpty && isPrefixL p s

/-- The loop body of `strip_comments`: keep each line unless its stripped
form is empty or starts with the (truthy) comment prefix. -/
def keptLines (pfx : Option (List Char)) : List (List Char) → List (List Char)
  | [] => []
  | line :: rest =>
      if (pyStrip line).isEmpty then keptLines pfx rest
      else if pfxDrop pfx (pyStrip line) then keptLines pfx rest
      else line :: keptLines pfx rest

/-- The drop condition actually evaluated by the code for one line. -/
def codeDrops (pfx : Option (List Char)) (l : List Char) : Bool :=
  (pyStrip l).isEmpty || pfxDrop pfx (pyStrip l)

/-- Embedding of `strip_comments(text, ext)` from `compare.py`. -/
def strip_comments (text : List Char) (ext : String) : List Char :=
  joinLines (keptLines (COMMENT_PREFIXES ext) (splitlines text))

/-- Drop condition as worded by the specification: a line is dropped iff,
after trimming surrounding whitespace, it is empty or starts with the
notation's configured comment prefix; no configured prefix means only
blank lines are dropped. -/
def dropsLine (pfx : Option (List Char)) (l : List Char) : Bool :=
  (pyStrip l).isEmpty ||
    (match pfx with
     | some p => isPrefixL p (pyStrip l)
     | none => false)

/-- Number of strings of `ws` occurring in `t` — embedding of the Python
generator-sum `sum(1 for w in ws if w in text)` in `check_workflow`. -/
def countPresent (ws : List String) (t : List Char) : Nat :=
  (ws.filter (fun w => pyIn w t)).length

/-- The `refund_after_deposit` entry of `check_workflow`.  Python evaluates
`text.index` inside the conditional expression only when the guard
`"deposit" in text and "refund" in text` holds; `index` raises when the
substring is absent, which is modelled by `Option` propagation. -/
def refundAfterDeposit (t : List Char) : Option Bool :=
  if pyIn "deposit" t && pyIn "refund" t then
    if !pyIn "refund" t then some false
    else if !pyIn "deposit" t then some false
    else do
      let i ← findSub "refund".toList t
      let j ← findSub "deposit".toList t
      some (decide (i > j))
  else some false

/-- Embedding of `check_workflow(text)`.  The dict is modelled as an ordered
association list; the whole checker is `Option`-valued because building the
dict evaluates `refund_after_deposit`, the one entry that can involve
`str.index`. -/
def check_workflow (t : List Char) : Option (List (String × Bool)) := do
  let rad ← refundAfterDeposit t
  some [
    ("named_transfer", pyIn "transfer" t),
    ("three_inputs",
      (pyIn "from" t || pyIn "source" t) && (pyIn "to" t || pyIn "dest" t)
        && pyIn "amount" t),
    ("calls_withdraw", pyIn "withdraw" t),
    ("calls_deposit", pyIn "deposit" t),
    ("handles_withdraw_err",
      pyIn "withdraw" t
        && (pyIn "err" t || pyIn "error" t || pyIn "catch" t || pyIn "fail" t)),
    ("handles_deposit_err",
      pyIn "deposit" t
        && (pyIn "err" t || pyIn "error" t || pyIn "catch" t || pyIn "fail" t)),
    ("compensates_refund", pyIn "refund" t),
    ("refund_after_deposit", rad),
    ("returns_receipt",
      (pyIn "receipt" t || pyIn "ok" t || pyIn "return" t)
        && (pyIn "from" t || pyIn "source" t)),
    ("receipt_has_both_ids",
      decide (1 ≤ countPresent ["wid", "withdraw", "w-id", "txn1", "tx1"] t)
        && decide (1 ≤ countPresent ["did", "deposit", "d-id", "txn2", "tx2"] t))]

/-- Embedding of `check_data_pipeline(text)`. -/
def check_data_pipeline (t : List Char) : List (String × Bool) :=
  [("named_enrich", pyIn "enrich" t),
   ("takes_orders", pyIn "order" t),
   ("iterates",
     pyIn "for" t || pyIn "map" t || pyIn "each" t || pyIn "yield" t
       || pyIn "items" t),
   ("calls_lookup", pyIn "lookup" t && pyIn "customer" t),
   ("handles_lookup_fail",
     pyIn "lookup" t
       && (pyIn "err" t || pyIn "error" t || pyIn "catch" t || pyIn "skip" t
             || pyIn "fail" t)),
   ("tier_check", pyIn "gold" t && pyIn "silver" t),
   ("calculates_discount",
     (pyIn "20" t || pyIn "0.2" t) && (pyIn "10" t || pyIn "0.1" t)),
   ("returns_list",
     pyIn "list" t || pyIn "array" t || pyIn "yield" t || pyIn "append" t
       || pyIn "for" t),
   ("includes_final_total", pyIn "final" t || pyIn "total" t),
   ("includes_customer_data", pyIn "name" t && pyIn "email" t)]

/-- The `three_rejections` entry of `check_decision_logic`: the sum of six
`str.count` calls reaches 3. -/
def three_rejections (t : List Char) : Bool :=
  decide (3 ≤
    countSub "too low".toList t + countSub "too high".toList t
      + countSub "exceed".toList t + countSub "reject".toList t
      + countSub "err".toList t + countSub "error".toList t)

/-- Embedding of `check_decision_logic(text)`. -/
def check_decision_logic (t : List Char) : List (String × Bool) :=
  [("named_approve", pyIn "approve" t),
   ("four_inputs",
     pyIn "income" t && pyIn "debt" t && pyIn "score" t && pyIn "amount" t),
   ("credit_check", pyIn "500" t && (pyIn "score" t || pyIn "credit" t)),
   ("debt_ratio",
     (pyIn "ratio" t || (pyIn "debt" t && pyIn "income" t))
       && (pyIn "0.4" t || pyIn "40" t)),
   ("max_loan",
     pyIn "income" t
       && (pyIn "5" t || pyIn "max" t || pyIn "limit" t || pyIn "exceed" t)),
   ("three_rejections", three_rejections t),
   ("rate_tiers", pyIn "750" t && pyIn "650" t),
   ("rate_values",
     (pyIn "3.5" t || pyIn "3.50" t) && (pyIn "5.0" t || pyIn "5.00" t)
       && (pyIn "7.5" t || pyIn "7.50" t)),
   ("monthly_calc",
     pyIn "12" t && (pyIn "100" t || pyIn "month" t || pyIn "payment" t)),
   ("returns_approved", pyIn "approv" t || pyIn "ok" t || pyIn "success" t)]

/-- Embedding of `check_api_orchestration(text)`. -/
def check_api_orchestration (t : List Char) : List (String × Bool) :=
  [("named_deploy", pyIn "deploy" t),
   ("three_inputs",
     pyIn "service" t && pyIn "version" t && pyIn "environment" t),
   ("calls_health", pyIn "health" t),
   ("calls_snapshot", pyIn "snapshot" t),
   ("calls_rollout", pyIn "roll" t),
   ("stores_snapshot_id",
     pyIn "snapshot" t && (pyIn "id" t || pyIn "let" t || pyIn "=" t)),
   ("handles_rollout_fail",
     pyIn "roll" t
       && (pyIn "err" t || pyIn "error" t || pyIn "catch" t || pyIn "fail" t)),
   ("rollback_on_fail", pyIn "restore" t && pyIn "snapshot" t),
   ("post_deploy_health", decide (2 ≤ countSub "health".toList t)),
   ("returns_success",
     (pyIn "ok" t || pyIn "return" t || pyIn "success" t) && pyIn "version" t)]

/-- Embedding of the checker dict of `COMPREHEND_EXAMPLES["04-tool-interaction"]`. -/
def comprehend_04_checkers (t : List Char) : List (String × Bool) :=
  [("mentions_notify", pyIn "notify" t),
   ("mentions_user_id_input", pyIn "user" t && pyIn "id" t),
   ("mentions_message_input", pyIn "message" t),
   ("calls_get_user",
     (pyIn "get" t || pyIn "fetch" t || pyIn "lookup" t || pyIn "look" t)
       && pyIn "user" t),
   ("calls_send_email", (pyIn "send" t || pyIn "dispatch" t) && pyIn "email" t),
   ("checks_verified",
     pyIn "verif" t || pyIn "verified" t || pyIn "validation" t),
   ("handles_errors",
     pyIn "error" t || pyIn "fail" t || pyIn "err" t || pyIn "exception" t),
   ("returns_result",
     pyIn "return" t || pyIn "result" t || pyIn "success" t || pyIn "ok" t)]

/-- Embedding of the checker dict of `COMPREHEND_EXAMPLES["05-workflow"]`. -/
def comprehend_05_checkers (t : List Char) : List (String × Bool) :=
  [("mentions_checkout", pyIn "checkout" t || pyIn "check" t),
   ("mentions_payment_input", pyIn "payment" t),
   ("mentions_items_input", pyIn "item" t || pyIn "inventory" t),
   ("calls_reserve",
     pyIn "reserve" t || pyIn "reservation" t || pyIn "inventory" t),
   ("calls_charge", pyIn "charge" t || pyIn "payment" t),
   ("compensates_release",
     pyIn "release" t || pyIn "rollback" t || pyIn "undo" t
       || pyIn "compensat" t),
   ("handles_errors",
     pyIn "error" t || pyIn "fail" t || pyIn "err" t || pyIn "exception" t),
   ("returns_result", pyIn "return" t || pyIn "result" t || pyIn "order" t)]

/-- Key list of `check_workflow`, in dict order. -/
def workflowKeys : List String :=
  ["named_transfer", "three_inputs", "calls_withdraw", "calls_deposit",
   "handles_withdraw_err", "handles_deposit_err", "compensates_refund",
   "refund_after_deposit", "returns_receipt", "receipt_has_both_ids"]

/-- Key list of `check_data_pipeline`, in dict order. -/
def dataPipelineKeys : List String :=
  ["named_enrich", "takes_orders", "iterates", "calls_lookup",
   "handles_lookup_fail", "tier_check", "calculates_discount", "returns_list",
   "includes_final_total", "includes_customer_data"]

/-- Key list of `check_decision_logic`, in dict order. -/
def decisionLogicKeys : List String :=
  ["named_approve", "four_inputs", "credit_check", "debt_ratio", "max_loan",
   "three_rejections", "rate_tiers", "rate_values", "monthly_calc",
   "returns_approved"]

/-- Key list of `check_api_orchestration`, in dict order. -/
def apiOrchestrationKeys : List String :=
  ["named_deploy", "three_inputs", "calls_health", "calls_snapshot",
   "calls_rollout", "stores_snapshot_id", "handles_rollout_fail",
   "rollback_on_fail", "post_deploy_health", "returns_success"]

/-- Observable trace of one `call_haiku` invocation: the outcome (`ok` output
text or the final re-raised exception, modelled as `error ()`), the sleep
durations performed in order, and the number of attempts issued to the
service.  Elapsed wall-clock time is not modelled. -/
structure CallTrace where
  result : Except Unit String
  sleeps : List Nat
  attempts : Nat
deriving Repr

/-- The `for attempt in range(5)` loop of `call_haiku`, with `fuel` loop
iterations remaining.  `svc k = some out` means the service call of attempt
`k` returns `out`; `none` means it raises.  On a failure with further
iterations remaining (Python `attempt < 4`) the loop sleeps `2 ** attempt`
seconds and retries; on the last iteration it re-raises. -/
def call_haiku_loop (svc : Nat → Option String) (attempt : Nat) :
    Nat → CallTrace
  | 0 => { result := Except.error (), sleeps := [], attempts := 0 }
  | fuel + 1 =>
      match svc attempt with
      | some out => { result := Except.ok out, sleeps := [], attempts := 1 }
      | none =>
          if fuel = 0 then
            { result := Except.error (), sleeps := [], attempts := 1 }
          else
            let rest := call_haiku_loop svc (attempt + 1) fuel
            { result := rest.result, sleeps := 2 ^ attempt :: rest.sleeps,
              attempts := rest.attempts + 1 }

/-- Embedding of `call_haiku(client, prompt)`: the retry loop entered with
`attempt = 0` and 5 iterations. -/
def call_haiku (svc : Nat → Option String) : CallTrace :=
  call_haiku_loop svc 0 5

/-- Leading fixed segment of `FULL_PROMPT`, up to the `rules` insertion point. -/
def FULL_PROMPT_pre : List Char :=
  ("You are being given the specification and examples of a programming format. "
    ++ "Study them carefully, then write a new program in the SAME format."
    ++ "\n\n## Language Specification\n\n").toList

/-- Segment of `FULL_PROMPT` between the `rules` and `examples` insertion points. -/
def FULL_PROMPT_mid1 : List Char := "\n\n## Examples\n\n".toList

/-- Segment of `FULL_PROMPT` between the `examples` and `task` insertion points. -/
def FULL_PROMPT_mid2 : List Char := "\n\nTask:\n".toList

/-- Trailing fixed segment of `FULL_PROMPT`, after the `task` insertion point. -/
def FULL_PROMPT_post : List Char :=
  ("\n\nOutput ONLY the code in the same format as the examples above. "
    ++ "No explanation, no markdown fences.").toList

/-- Embedding of `FULL_PROMPT.format(rules=..., examples=..., task=...)` as
performed by `run_full_tests`: pure interpolation of the three source texts
into the fixed template. -/
def FULL_PROMPT_format (rules examples task : List Char) : List Char :=
  FULL_PROMPT_pre ++ rules ++ FULL_PROMPT_mid1 ++ examples
    ++ FULL_PROMPT_mid2 ++ task ++ FULL_PROMPT_post

/-- One recorded trial, as read back from the persisted run log: its notation
("idea"), its task, and the trial score (sum of true feature values). -/
structure TrialRec where
  idea : String
  task : String
  score : Nat
deriving Repr, DecidableEq

/-- One per-task cell as computed inside a rendered row of the
`write_summary` per-task score table: the idea filter followed by the task
filter; an empty group renders the distinguished em-dash marker (modelled
`none`), a non-empty group renders the average, modelled as the exact pair
(sum of scores, number of trials).  Whether the row holding the cell is
rendered at all is `summaryRow`. -/
def summaryTaskCell (results : List TrialRec) (idea task : String) :
    Option (Nat × Nat) :=
  let idea_results := results.filter (fun r => r.idea == idea)
  let task_results := idea_results.filter (fun r => r.task == task)
  if task_results.isEmpty then none
  else some ((task_results.map TrialRec.score).sum, task_results.length)

/-- One row of the `write_summary` per-task score table for one idea:
`if not idea_results: continue` skips the whole row when the idea has no
recorded trials at all (modelled by the outer `none`); otherwise one cell
per task is rendered, an em-dash marker (inner `none`) for a task with no
trials and the exact average data otherwise. -/
def summaryRow (results : List TrialRec) (idea : String)
    (task_names : List String) : Option (List (Option (Nat × Nat))) :=
  let idea_results := results.filter (fun r => r.idea == idea)
  if idea_results.isEmpty then none
  else some (task_names.map (fun task =>
    let task_results := idea_results.filter (fun r => r.task == task)
    if task_results.isEmpty then none
    else some ((task_results.map TrialRec.score).sum, task_results.length)))

/-- One per-task cell of the inline per-task breakdown printed by
`run_tests`: the group average is computed unconditionally, so an empty
group divides by zero (Python `ZeroDivisionError`, modelled `error ()`). -/
def run_tests_taskCell (results : List TrialRec) (idea task : String) :
    Except Unit (Nat × Nat) :=
  let task_results :=
    results.filter (fun r => r.idea == idea && r.task == task)
  if task_results.isEmpty then Except.error ()
  else Except.ok ((task_results.map TrialRec.score).sum, task_results.length)

/-! ### Normalizer lemmas -/

theorem keptLines_eq_filter (pfx : Option (List Char))
    (ls : List (List Char)) :
    keptLines pfx ls = ls.filter (fun l => !codeDrops pfx l) := by
  induction ls with
  | nil => rfl
  | cons l rest ih =>
      by_cases h1 : (pyStrip l).isEmpty
      · simp [keptLines, codeDrops, h1, ih, List.filter_cons]
      · by_cases h2 : pfxDrop pfx (pyStrip l)
        · simp [keptLines, codeDrops, h1, h2, ih, List.filter_cons]
        · simp [keptLines, codeDrops, h1, h2, ih, List.filter_cons]

theorem splitOnNL_cons_other (c : Char) (rest : List Char)
    (h1 : c ≠ '\n') (h2 : c ≠ '\r') :
    splitOnNL (c :: rest) = consLine c (splitOnNL rest) := by
  simp [splitOnNL, h1, h2]

theorem splitOnNL_mem (t : List Char) :
    ∀ l ∈ splitOnNL t, '\n' ∉ l ∧ '\r' ∉ l := by
  induction t with
  | nil => intro l hl; simp [splitOnNL] at hl
  | cons c rest ih =>
      intro l hl
      by_cases h1 : c = '\n'
      · rw [show splitOnNL (c :: rest) = [] :: splitOnNL rest by
            simp [splitOnNL, h1]] at hl
        rcases List.mem_cons.mp hl with h' | h'
        · subst h'; simp
        · exact ih l h'
      · by_cases h2 : c = '\r'
        · rw [show splitOnNL (c :: rest) = [] :: splitOnNL rest by
              simp [splitOnNL, h2]] at hl
          rcases List.mem_cons.mp hl with h' | h'
          · subst h'; simp
          · exact ih l h'
        · rw [splitOnNL_cons_other c rest h1 h2] at hl
          cases e : splitOnNL rest with
          | nil =>
              rw [e] at hl
              simp only [consLine, List.mem_singleton] at hl
              subst hl
              exact ⟨by simpa using fun e => h1 e.symm,
                by simpa using fun e => h2 e.symm⟩
          | cons l0 ls' =>
              rw [e] at hl
              simp only [consLine] at hl
              rcases List.mem_cons.mp hl with h' | h'
              · subst h'
                have h0 := ih l0 (by rw [e]; exact List.mem_cons_self l0 ls')
                simp only [List.mem_cons]
                constructor
                · rintro (he | hm)
                  · exact h1 he.symm
                  · exact h0.1 hm
                · rintro (he | hm)
                  · exact h2 he.symm
                  · exact h0.2 hm
              · exact ih l (by rw [e]; exact List.mem_cons_of_mem l0 h')

theorem splitOnNL_append_cons (l t : List Char)
    (h1 : '\n' ∉ l) (h2 : '\r' ∉ l) :
    splitOnNL (l ++ '\n' :: t) = l :: splitOnNL t := by
  induction l with
  | nil => simp [splitOnNL]
  | cons c l' ih =>
      have hc1 : c ≠ '\n' := fun e => h1 (e ▸ List.mem_cons_self c l')
      have hc2 : c ≠ '\r' := fun e => h2 (e ▸ List.mem_cons_self c l')
      have ih' := ih (fun hm => h1 (List.mem_cons_of_mem c hm))
        (fun hm => h2 (List.mem_cons_of_mem c hm))
      rw [List.cons_append, splitOnNL_cons_other c _ hc1 hc2, ih']
      rfl

theorem splitOnNL_single (l : List Char) (hne : l ≠ [])
    (h1 : '\n' ∉ l) (h2 : '\r' ∉ l) : splitOnNL l = [l] := by
  induction l with
  | nil => exact absurd rfl hne
  | cons c l' ih =>
      have hc1 : c ≠ '\n' := fun e => h1 (e ▸ List.mem_cons_self c l')
      have hc2 : c ≠ '\r' := fun e => h2 (e ▸ List.mem_cons_self c l')
      rw [splitOnNL_cons_other c l' hc1 hc2]
      cases l' with
      | nil => rfl
      | cons d l'' =>
          have ih' := ih (by simp) (fun hm => h1 (List.mem_cons_of_mem c hm))
            (fun hm => h2 (List.mem_cons_of_mem c hm))
          rw [ih']
          rfl

theorem joinLines_cons₂ (l l2 : List Char) (ls : List (List Char)) :
    joinLines (l :: l2 :: ls) = l ++ '\n' :: joinLines (l2 :: ls) := rfl

theorem splitOnNL_joinLines (ls : List (List Char))
    (h : ∀ l ∈ ls, l ≠ [] ∧ '\n' ∉ l ∧ '\r' ∉ l) :
    splitOnNL (joinLines ls) = ls := by
  induction ls with
  | nil => rfl
  | cons l rest ih =>
      obtain ⟨hne, h1, h2⟩ := h l (List.mem_cons_self l rest)
      cases rest with
      | nil => exact splitOnNL_single l hne h1 h2
      | cons l2 rest' =>
          rw [joinLines_cons₂, splitOnNL_append_cons l _ h1 h2,
            ih (fun x hx => h x (List.mem_cons_of_mem l hx))]

theorem normCRLF_eq_self_aux :
    ∀ n (t : List Char), t.length ≤ n → '\r' ∉ t → normCRLF t = t := by
  intro n
  induction n with
  | zero =>
      intro t hlen _
      cases t with
      | nil => rfl
      | cons c rest => simp at hlen
  | succ n ih =>
      intro t hlen hr
      cases t with
      | nil => rfl
      | cons c rest =>
          cases rest with
          | nil => rfl
          | cons d rest' =>
              have hc : c ≠ '\r' := fun e => hr (e ▸ List.mem_cons_self c _)
              have : normCRLF (d :: rest') = d :: rest' := by
                refine ih (d :: rest') ?_ ?_
                · simpa using Nat.le_of_succ_le_succ hlen
                · exact fun hm => hr (List.mem_cons_of_mem c hm)
              simp [normCRLF, hc, this]

theorem normCRLF_eq_self (t : List Char) (hr : '\r' ∉ t) : normCRLF t = t :=
  normCRLF_eq_self_aux t.length t le_rfl hr

theorem joinLines_noCR (ls : List (List Char))
    (h : ∀ l ∈ ls, '\r' ∉ l) : '\r' ∉ joinLines ls := by
  induction ls with
  | nil => simp [joinLines]
  | cons l rest ih =>
      cases rest with
      | nil => exact h l (List.mem_cons_self l [])
      | cons l2 rest' =>
          rw [joinLines_cons₂]
          intro hm
          rcases List.mem_append.mp hm with hm | hm
          · exact h l (List.mem_cons_self l _) hm
          · rcases List.mem_cons.mp hm with hm | hm
            · exact absurd hm.symm (by decide)
            · exact ih (fun x hx => h x (List.mem_cons_of_mem l hx)) hm

theorem filter_self_filter {α : Type} (p : α → Bool) (ls : List α) :
    (ls.filter p).filter p = ls.filter p := by
  induction ls with
  | nil => rfl
  | cons a rest ih =>
      by_cases h : p a
      · simp [List.filter_cons, h, ih]
      · simp [List.filter_cons, h, ih]

theorem kept_lines_props (text : List Char) (ext : String) :
    ∀ l ∈ keptLines (COMMENT_PREFIXES ext) (splitlines text),
      l ≠ [] ∧ '\n' ∉ l ∧ '\r' ∉ l := by
  intro l hl
  rw [keptLines_eq_filter] at hl
  obtain ⟨hmem, hkeep⟩ := List.mem_filter.mp hl
  obtain ⟨h1, h2⟩ := splitOnNL_mem (normCRLF text) l hmem
  refine ⟨?_, h1, h2⟩
  intro he
  subst he
  simp [codeDrops, pyStrip, List.dropWhile] at hkeep

theorem splitlines_strip_comments (text : List Char) (ext : String) :
    splitlines (strip_comments text ext)
      = keptLines (COMMENT_PREFIXES ext) (splitlines text) := by
  have hprops := kept_lines_props text ext
  have hnoCR : '\r' ∉ joinLines (keptLines (COMMENT_PREFIXES ext)
      (splitlines text)) :=
    joinLines_noCR _ (fun l hl => (hprops l hl).2.2)
  rw [strip_comments, splitlines, normCRLF_eq_self _ hnoCR]
  exact splitOnNL_joinLines _ hprops

theorem codeDrops_eq_dropsLine (ext : String) (l : List Char) :
    codeDrops (COMMENT_PREFIXES ext) l = dropsLine (COMMENT_PREFIXES ext) l := by
  unfold COMMENT_PREFIXES
  split_ifs <;> simp [codeDrops, dropsLine, pfxDrop]

/-- C3: `strip_comments` splits the input into lines and keeps exactly those
lines whose whitespace-trimmed form is non-empty and does not start with the
notation's configured comment prefix, joined back with newlines; the kept
lines are a sublist of the original lines (original content, original
order); and with no configured prefix only blank lines are dropped. -/
theorem strip_comments_drop_rule (text : List Char) (ext : String) :
    strip_comments text ext
      = joinLines ((splitlines text).filter
          (fun l => !dropsLine (COMMENT_PREFIXES ext) l))
    ∧ List.Sublist
        ((splitlines text).filter
          (fun l => !dropsLine (COMMENT_PREFIXES ext) l))
        (splitlines text)
    ∧ (COMMENT_PREFIXES ext = none →
        strip_comments text ext
          = joinLines ((splitlines text).filter
              (fun l => !(pyStrip l).isEmpty))) := by
  have hfe : (fun l => !codeDrops (COMMENT_PREFIXES ext) l)
      = (fun l => !dropsLine (COMMENT_PREFIXES ext) l) := by
    funext l
    rw [codeDrops_eq_dropsLine]
  refine ⟨?_, List.filter_sublist _, ?_⟩
  · show joinLines (keptLines (COMMENT_PREFIXES ext) (splitlines text)) = _
    rw [keptLines_eq_filter, hfe]
  · intro hnone
    show joinLines (keptLines (COMMENT_PREFIXES ext) (splitlines text)) = _
    rw [keptLines_eq_filter, hnone]
    have hfe2 : (fun l => !codeDrops none l)
        = (fun l : List Char => !(pyStrip l).isEmpty) := by
      funext l
      simp [codeDrops, pfxDrop]
    rw [hfe2]

/-- Witness for C3: for the extension `.json` no comment prefix is
configured, and only blank lines are dropped. -/
theorem strip_comments_drop_rule_witness :
    strip_comments "a\n\nb\n".toList ".json"
      = joinLines ((splitlines "a\n\nb\n".toList).filter
          (fun l => !(pyStrip l).isEmpty)) :=
  (strip_comments_drop_rule "a\n\nb\n".toList ".json").2.2 (by decide)

/-- C4: normalization is idempotent: stripping comments from an
already-stripped text changes nothing, for every input and extension. -/
theorem strip_comments_idempotent (text : List Char) (ext : String) :
    strip_comments (strip_comments text ext) ext = strip_comments text ext := by
  calc strip_comments (strip_comments text ext) ext
      = joinLines (keptLines (COMMENT_PREFIXES ext)
          (splitlines (strip_comments text ext))) := rfl
    _ = joinLines (keptLines (COMMENT_PREFIXES ext)
          (keptLines (COMMENT_PREFIXES ext) (splitlines text))) := by
          rw [splitlines_strip_comments]
    _ = joinLines (((splitlines text).filter
          (fun l => !codeDrops (COMMENT_PREFIXES ext) l)).filter
          (fun l => !codeDrops (COMMENT_PREFIXES ext) l)) := by
          rw [keptLines_eq_filter, keptLines_eq_filter]
    _ = joinLines ((splitlines text).filter
          (fun l => !codeDrops (COMMENT_PREFIXES ext) l)) := by
          rw [filter_self_filter]
    _ = strip_comments text ext := by
          rw [← keptLines_eq_filter]
          rfl

theorem mem_of_getLast?_eq {α : Type} :
    ∀ (l : List α) (c : α), l.getLast? = some c → c ∈ l := by
  intro l
  induction l with
  | nil => intro c h; simp at h
  | cons a rest ih =>
      intro c h
      cases rest with
      | nil =>
          simp only [List.getLast?_singleton, Option.some.injEq] at h
          simp [h]
      | cons b rest' =>
          rw [List.getLast?_cons_cons] at h
          exact List.mem_cons_of_mem a (ih c h)

theorem joinLines_getLast? :
    ∀ ls : List (List Char), (∀ l ∈ ls, l ≠ []) → ls ≠ [] →
      ∃ l ∈ ls, (joinLines ls).getLast? = l.getLast? := by
  intro ls
  induction ls with
  | nil => intro _ hne; exact absurd rfl hne
  | cons l rest ih =>
      intro h _
      cases rest with
      | nil => exact ⟨l, List.mem_cons_self l [], rfl⟩
      | cons l2 rest' =>
          obtain ⟨l0, hl0, he⟩ := ih
            (fun x hx => h x (List.mem_cons_of_mem l hx)) (by simp)
          refine ⟨l0, List.mem_cons_of_mem l hl0, ?_⟩
          rw [joinLines_cons₂, List.getLast?_append_cons]
          have hjne : joinLines (l2 :: rest') ≠ [] := by
            cases hj : joinLines (l2 :: rest') with
            | nil =>
                exfalso
                cases rest' with
                | nil => exact h l2 (by simp) hj
                | cons l3 rest'' =>
                    rw [joinLines_cons₂] at hj
                    simp at hj
            | cons a as => simp
          cases hj : joinLines (l2 :: rest') with
          | nil => exact absurd hj hjne
          | cons a as =>
              rw [List.getLast?_cons_cons, ← hj, he]

/-- C9: the output of `strip_comments` contains no line that is empty or
whitespace-only after trimming, and its final character (when it has one)
is never a newline character (`'\n'` or `'\r'`): measured sizes of
normalized text therefore exclude blank lines and any trailing newline. -/
theorem strip_comments_output_clean (text : List Char) (ext : String) :
    (∀ l ∈ splitlines (strip_comments text ext), (pyStrip l).isEmpty = false)
    ∧ (∀ c, (strip_comments text ext).getLast? = some c →
        c ≠ '\n' ∧ c ≠ '\r') := by
  constructor
  · intro l hl
    rw [splitlines_strip_comments, keptLines_eq_filter] at hl
    have hkeep := (List.mem_filter.mp hl).2
    simp only [codeDrops, Bool.not_or, Bool.and_eq_true, Bool.not_eq_true'] at hkeep
    exact hkeep.1
  · intro c hc
    have hprops := kept_lines_props text ext
    cases hk : keptLines (COMMENT_PREFIXES ext) (splitlines text) with
    | nil =>
        exfalso
        have : strip_comments text ext = [] := by
          show joinLines (keptLines (COMMENT_PREFIXES ext) (splitlines text)) = []
          rw [hk]
          rfl
        rw [this] at hc
        simp at hc
    | cons k ks =>
        obtain ⟨l0, hl0, he⟩ := joinLines_getLast?
          (keptLines (COMMENT_PREFIXES ext) (splitlines text))
          (fun x hx => (hprops x hx).1) (by rw [hk]; simp)
        have hc0 : strip_comments text ext
            = joinLines (keptLines (COMMENT_PREFIXES ext) (splitlines text)) := rfl
        rw [hc0, he] at hc
        have hmem := mem_of_getLast?_eq l0 c hc
        obtain ⟨_, hn, hr⟩ := hprops l0 hl0
        exact ⟨fun e => hn (e ▸ hmem), fun e => hr (e ▸ hmem)⟩

/-- Witness for C9: applied to a concrete file text with a comment line, a
blank line and a trailing newline, the single kept line is not blank and
the output does not end in a newline. -/
theorem strip_comments_output_clean_witness :
    (pyStrip "keep".toList).isEmpty = false ∧ 'p' ≠ '\n' ∧ 'p' ≠ '\r' :=
  ⟨(strip_comments_output_clean "# c\nkeep\n\n".toList ".py").1
      "keep".toList (by decide),
   (strip_comments_output_clean "# c\nkeep\n\n".toList ".py").2 'p' (by decide)⟩

/-! ### Checker lemmas -/

theorem findSub_isSome_of_hasSub (needle : List Char) :
    ∀ t, hasSub needle t = true → (findSub needle t).isSome = true := by
  intro t
  induction t with
  | nil =>
      intro h
      simp only [hasSub] at h
      simp [findSub, h]
  | cons c rest ih =>
      intro h
      simp only [hasSub, Bool.or_eq_true] at h
      by_cases hp : isPrefixL needle (c :: rest) = true
      · simp [findSub, hp]
      · rcases h with h | h
        · exact absurd h hp
        · have hp' : isPrefixL needle (c :: rest) = false :=
            Bool.eq_false_iff.mpr hp
          have hih := ih h
          cases e : findSub needle rest with
          | none => rw [e] at hih; simp at hih
          | some k => simp [findSub, hp', e]

theorem refundAfterDeposit_isSome (t : List Char) :
    (refundAfterDeposit t).isSome = true := by
  unfold refundAfterDeposit
  by_cases hg : (pyIn "deposit" t && pyIn "refund" t) = true
  · obtain ⟨hd, hr⟩ := Bool.and_eq_true_iff.mp hg
    obtain ⟨i, hi⟩ := Option.isSome_iff_exists.mp
      (findSub_isSome_of_hasSub "refund".toList t hr)
    obtain ⟨j, hj⟩ := Option.isSome_iff_exists.mp
      (findSub_isSome_of_hasSub "deposit".toList t hd)
    rw [if_pos hg, if_neg (by simp [hr]), if_neg (by simp [hd])]
    rw [hi, hj]
    rfl
  · simp [hg]

/-- C7: every registered predicate is a total function over text: on every
input (including the empty string) each of the four task checkers and both
comprehension checkers produces a boolean for every one of its predicates —
the full predicate list, 10 entries per task checker and 8 per comprehension
checker.  The only operation in any predicate that can raise is `str.index`
in `refund_after_deposit`, modelled by `Option`: its guard ensures both
`"refund"` and `"deposit"` occur before `index` is evaluated, so it — and
with it the whole `check_workflow` mapping — always yields a value; every
other predicate is built solely from substring membership and counting. -/
theorem checker_predicates_total (t : List Char) :
    (refundAfterDeposit t).isSome = true
    ∧ (check_workflow t).isSome = true
    ∧ (check_workflow t).map List.length = some 10
    ∧ (check_data_pipeline t).length = 10
    ∧ (check_decision_logic t).length = 10
    ∧ (check_api_orchestration t).length = 10
    ∧ (comprehend_04_checkers t).length = 8
    ∧ (comprehend_05_checkers t).length = 8 := by
  obtain ⟨b, hb⟩ := Option.isSome_iff_exists.mp (refundAfterDeposit_isSome t)
  refine ⟨refundAfterDeposit_isSome t, ?_, ?_, rfl, rfl, rfl, rfl, rfl⟩
  · unfold check_workflow
    simp [hb]
  · unfold check_workflow
    simp [hb]

/-- C2: each task checker returns a mapping with the same fixed key list for
every input text — no predicate is conditionally omitted — so the reported
total (number of keys) is the constant 10 per task across all notations and
trials. -/
theorem checker_key_sets (t : List Char) :
    (check_workflow t).map (fun m => m.map Prod.fst) = some workflowKeys
    ∧ (check_data_pipeline t).map Prod.fst = dataPipelineKeys
    ∧ (check_decision_logic t).map Prod.fst = decisionLogicKeys
    ∧ (check_api_orchestration t).map Prod.fst = apiOrchestrationKeys
    ∧ workflowKeys.length = 10 ∧ dataPipelineKeys.length = 10
    ∧ decisionLogicKeys.length = 10 ∧ apiOrchestrationKeys.length = 10 := by
  obtain ⟨b, hb⟩ := Option.isSome_iff_exists.mp (refundAfterDeposit_isSome t)
  refine ⟨?_, rfl, rfl, rfl, rfl, rfl, rfl, rfl⟩
  unfold check_workflow
  simp [hb, workflowKeys]

/-- C6: on any (lowercased) output text, at least three occurrences of
`"reject"` make the `three_rejections` predicate true; presence of all of
`"3.5"`, `"5.0"`, `"7.5"` makes `rate_values` true; and absence of `"650"`
makes `rate_tiers` false. -/
theorem decision_logic_thresholds (t : List Char) :
    (3 ≤ countSub "reject".toList t →
      (check_decision_logic t).lookup "three_rejections" = some true)
    ∧ (pyIn "3.5" t = true → pyIn "5.0" t = true → pyIn "7.5" t = true →
      (check_decision_logic t).lookup "rate_values" = some true)
    ∧ (pyIn "650" t = false →
      (check_decision_logic t).lookup "rate_tiers" = some false) := by
  refine ⟨?_, ?_, ?_⟩
  · intro h
    have hl : (check_decision_logic t).lookup "three_rejections"
        = some (three_rejections t) := rfl
    rw [hl]
    simp only [three_rejections, Option.some.injEq, decide_eq_true_eq]
    omega
  · intro h1 h2 h3
    have hl : (check_decision_logic t).lookup "rate_values"
        = some ((pyIn "3.5" t || pyIn "3.50" t)
            && (pyIn "5.0" t || pyIn "5.00" t)
            && (pyIn "7.5" t || pyIn "7.50" t)) := rfl
    rw [hl, h1, h2, h3]
    rfl
  · intro h
    have hl : (check_decision_logic t).lookup "rate_tiers"
        = some (pyIn "750" t && pyIn "650" t) := rfl
    rw [hl, h]
    simp

/-- Witness for C6 at a concrete output text with three rejections, all
three rate literals, and no `"650"`. -/
theorem decision_logic_thresholds_witness :
    (check_decision_logic "reject reject reject 3.5 5.0 7.5".toList).lookup
        "three_rejections" = some true
    ∧ (check_decision_logic "reject reject reject 3.5 5.0 7.5".toList).lookup
        "rate_values" = some true
    ∧ (check_decision_logic "reject reject reject 3.5 5.0 7.5".toList).lookup
        "rate_tiers" = some false :=
  ⟨(decision_logic_thresholds "reject reject reject 3.5 5.0 7.5".toList).1
      (by decide),
   (decision_logic_thresholds "reject reject reject 3.5 5.0 7.5".toList).2.1
      (by decide) (by decide) (by decide),
   (decision_logic_thresholds "reject reject reject 3.5 5.0 7.5".toList).2.2
      (by decide)⟩

/-- C10: `three_rejections` sums counts of overlapping needles, so each
occurrence of `"error"` is counted by both `count("err")` and
`count("error")`: the text `"error error"` contains none of the rejection
wordings yet satisfies `three_rejections`. -/
theorem three_rejections_overlap :
    pyIn "too low" "error error".toList = false
    ∧ pyIn "too high" "error error".toList = false
    ∧ pyIn "exceed" "error error".toList = false
    ∧ pyIn "reject" "error error".toList = false
    ∧ countSub "error".toList "error error".toList = 2
    ∧ countSub "err".toList "error error".toList = 2
    ∧ (check_decision_logic "error error".toList).lookup "three_rejections"
        = some true := by decide

/-! ### Prompt assembly lemmas -/

theorem isPrefixL_append (n : List Char) :
    ∀ a b, isPrefixL n a = true → isPrefixL n (a ++ b) = true := by
  induction n with
  | nil => intro a b _; rfl
  | cons x n' ih =>
      intro a b h
      cases a with
      | nil => simp [isPrefixL] at h
      | cons y a' =>
          simp only [isPrefixL, Bool.and_eq_true] at h
          simp only [List.cons_append, isPrefixL, Bool.and_eq_true]
          exact ⟨h.1, ih a' b h.2⟩

theorem hasSub_nil_needle : ∀ b : List Char, hasSub [] b = true := by
  intro b
  cases b with
  | nil => rfl
  | cons c rest => simp [hasSub, isPrefixL]

theorem hasSub_append_left (n a b : List Char) (h : hasSub n a = true) :
    hasSub n (a ++ b) = true := by
  induction a with
  | nil =>
      simp only [hasSub] at h
      cases n with
      | nil => simpa using hasSub_nil_needle b
      | cons x n' => simp [isPrefixL] at h
  | cons c a' ih =>
      simp only [hasSub, Bool.or_eq_true] at h
      simp only [List.cons_append, hasSub, Bool.or_eq_true]
      rcases h with h | h
      · exact Or.inl (isPrefixL_append n (c :: a') b h)
      · exact Or.inr (ih h)

theorem hasSub_append_right (n b : List Char) (h : hasSub n b = true) :
    ∀ a, hasSub n (a ++ b) = true := by
  intro a
  induction a with
  | nil => simpa using h
  | cons c a' ih =>
      simp only [List.cons_append, hasSub, Bool.or_eq_true]
      exact Or.inr ih

/-- C5 counterexample: assembling `FULL_PROMPT` with an empty rules text
still yields the Language Specification section header — the section is not
omitted when its source text is empty. -/
theorem full_prompt_empty_rules_kept :
    hasSub "## Language Specification".toList
      (FULL_PROMPT_format [] "ex".toList "task".toList) = true := by decide

/-- C5 amended: prompt assembly is pure, deterministic string interpolation
into the fixed template with no conditional behavior at all: for every
rules, examples and task text — empty or not — the assembled prompt is the
fixed concatenation, and both section headers always occur in it. -/
theorem full_prompt_pure_interpolation (rules examples task : List Char) :
    FULL_PROMPT_format rules examples task
      = FULL_PROMPT_pre ++ rules ++ FULL_PROMPT_mid1 ++ examples
          ++ FULL_PROMPT_mid2 ++ task ++ FULL_PROMPT_post
    ∧ hasSub "## Language Specification".toList
        (FULL_PROMPT_format rules examples task) = true
    ∧ hasSub "## Examples".toList
        (FULL_PROMPT_format rules examples task) = true := by
  refine ⟨rfl, ?_, ?_⟩
  · have h0 : hasSub "## Language Specification".toList FULL_PROMPT_pre
        = true := by decide
    have h1 := hasSub_append_left "## Language Specification".toList
      FULL_PROMPT_pre
      (rules ++ (FULL_PROMPT_mid1 ++ (examples
        ++ (FULL_PROMPT_mid2 ++ (task ++ FULL_PROMPT_post))))) h0
    simpa [FULL_PROMPT_format, List.append_assoc] using h1
  · have h0 : hasSub "## Examples".toList FULL_PROMPT_mid1 = true := by decide
    have h1 := hasSub_append_left "## Examples".toList FULL_PROMPT_mid1
      (examples ++ (FULL_PROMPT_mid2 ++ (task ++ FULL_PROMPT_post))) h0
    have h2 := hasSub_append_right "## Examples".toList _ h1 rules
    have h3 := hasSub_append_right "## Examples".toList _ h2 FULL_PROMPT_pre
    simpa [FULL_PROMPT_format, List.append_assoc] using h3

/-! ### Summary aggregation lemmas -/

/-- C8 counterexample: the inline per-task summary of `run_tests` computes
the group average unconditionally, so on a run log in which the
`(idea1, workflow)` combination has zero recorded trials it fails with a
division by zero instead of rendering a no-data marker. -/
theorem run_tests_summary_empty_group_fails :
    run_tests_taskCell [⟨"idea1", "data_pipeline", 5⟩] "idea1" "workflow"
      = Except.error () := rfl

/-- C8 amended: in `write_summary`, a notation with no recorded trials at
all has its whole row omitted (`continue`), never rendered; a notation with
at least one recorded trial gets a row with one cell per task, where a
`(notation, task)` combination with zero recorded trials is rendered as the
distinguished no-data em-dash marker (`none`) — never a zero score — and
the aggregation is total on the empty group; conversely any recorded trial
for the combination, even one with score zero, yields a rendered average
and never the marker.  The unguarded inline per-task summary of `run_tests`
does not share this property (see the counterexample), but it only ever
summarizes its own just-built log in which every exercised combination has
at least one trial. -/
theorem write_summary_no_data_marker (results : List TrialRec)
    (idea : String) (task_names : List String) :
    (results.filter (fun r => r.idea == idea) = [] →
      summaryRow results idea task_names = none)
    ∧ (results.filter (fun r => r.idea == idea) ≠ [] →
      summaryRow results idea task_names
        = some (task_names.map (fun task => summaryTaskCell results idea task)))
    ∧ (∀ task, summaryTaskCell results idea task = none ↔
        ((results.filter (fun r => r.idea == idea)).filter
          (fun r => r.task == task)) = [])
    ∧ (∀ task, ∀ r ∈ results, r.idea = idea → r.task = task →
        summaryTaskCell results idea task ≠ none) := by
  have hcell : ∀ task, summaryTaskCell results idea task = none ↔
      ((results.filter (fun r => r.idea == idea)).filter
        (fun r => r.task == task)) = [] := by
    intro task
    simp only [summaryTaskCell]
    by_cases h : ((results.filter (fun r => r.idea == idea)).filter
        (fun r => r.task == task)).isEmpty
    · simp [h, List.isEmpty_iff.mp h]
    · rw [if_neg h]
      constructor
      · intro hc
        exact absurd hc (by simp)
      · intro hc
        exact absurd (List.isEmpty_iff.mpr hc) h
  refine ⟨?_, ?_, hcell, ?_⟩
  · intro he
    simp only [summaryRow]
    rw [if_pos (List.isEmpty_iff.mpr he)]
  · intro hne
    simp only [summaryRow, summaryTaskCell]
    rw [if_neg (fun hc => hne (List.isEmpty_iff.mp hc))]
  · intro task r hr hi ht hnone
    have hmem : r ∈ (results.filter (fun r => r.idea == idea)).filter
        (fun r => r.task == task) := by
      refine List.mem_filter.mpr ⟨List.mem_filter.mpr ⟨hr, ?_⟩, ?_⟩
      · simp [hi]
      · simp [ht]
    rw [(hcell task).mp hnone] at hmem
    simp at hmem

/-- Witness for C8 (amended): a log holding one zero-score trial of
`workflow` for `idea1` renders the `idea1` row with an average cell for
`workflow` and the em-dash marker for `data_pipeline`, while the row of the
trial-less `idea2` is omitted entirely. -/
theorem write_summary_no_data_marker_witness :
    summaryRow [⟨"idea1", "workflow", 0⟩] "idea1" ["workflow", "data_pipeline"]
      = some [some (0, 1), none]
    ∧ summaryRow [⟨"idea1", "workflow", 0⟩] "idea2" ["workflow"] = none
    ∧ summaryTaskCell [⟨"idea1", "workflow", 0⟩] "idea1" "workflow" ≠ none := by
  refine ⟨?_, ?_, ?_⟩
  · rw [(write_summary_no_data_marker [⟨"idea1", "workflow", 0⟩] "idea1"
      ["workflow", "data_pipeline"]).2.1 (by decide)]
    decide
  · exact (write_summary_no_data_marker [⟨"idea1", "workflow", 0⟩] "idea2"
      ["workflow"]).1 (by decide)
  · exact (write_summary_no_data_marker [⟨"idea1", "workflow", 0⟩] "idea1"
      ["workflow"]).2.2.2 "workflow" ⟨"idea1", "workflow", 0⟩ (by simp) rfl rfl

/-! ### Resilient caller: retry policy lemmas -/

theorem call_haiku_loop_attempts_le (svc : Nat → Option String) :
    ∀ fuel attempt, (call_haiku_loop svc attempt fuel).attempts ≤ fuel := by
  intro fuel
  induction fuel with
  | zero => intro attempt; simp [call_haiku_loop]
  | succ f ih =>
      intro attempt
      simp only [call_haiku_loop]
      cases svc attempt with
      | some out => simp
      | none =>
          by_cases hf : f = 0
          · simp [hf]
          · simpa [hf] using Nat.succ_le_succ (ih (attempt + 1))

theorem call_haiku_loop_fail_step (svc : Nat → Option String)
    (attempt f : Nat) (h0 : svc attempt = none) (hf : f ≠ 0) :
    call_haiku_loop svc attempt (f + 1) =
      { result := (call_haiku_loop svc (attempt + 1) f).result,
        sleeps := 2 ^ attempt :: (call_haiku_loop svc (attempt + 1) f).sleeps,
        attempts := (call_haiku_loop svc (attempt + 1) f).attempts + 1 } := by
  simp [call_haiku_loop, h0, hf]

theorem call_haiku_loop_all_fail (svc : Nat → Option String) :
    ∀ fuel attempt, 0 < fuel →
      (∀ j, attempt ≤ j → j < attempt + fuel → svc j = none) →
      call_haiku_loop svc attempt fuel =
        { result := Except.error (),
          sleeps := (List.range' attempt (fuel - 1)).map (fun j => 2 ^ j),
          attempts := fuel } := by
  intro fuel
  induction fuel with
  | zero => intro attempt h; omega
  | succ f ih =>
      intro attempt _ hall
      have h0 : svc attempt = none := hall attempt le_rfl (by omega)
      cases f with
      | zero => simp [call_haiku_loop, h0, List.range']
      | succ f' =>
          have hrest := ih (attempt + 1) (by omega)
            (fun j h1 h2 => hall j (by omega) (by omega))
          rw [call_haiku_loop_fail_step svc attempt (f' + 1) h0 (by omega),
            hrest]
          simp [List.range']

theorem call_haiku_loop_first_success (svc : Nat → Option String) :
    ∀ k fuel attempt s, k < fuel →
      (∀ j, attempt ≤ j → j < attempt + k → svc j = none) →
      svc (attempt + k) = some s →
      call_haiku_loop svc attempt fuel =
        { result := Except.ok s,
          sleeps := (List.range' attempt k).map (fun j => 2 ^ j),
          attempts := k + 1 } := by
  intro k
  induction k with
  | zero =>
      intro fuel attempt s hk _ hs
      cases fuel with
      | zero => omega
      | succ f =>
          rw [Nat.add_zero] at hs
          simp [call_haiku_loop, hs, List.range']
  | succ k ih =>
      intro fuel attempt s hk hnone hs
      cases fuel with
      | zero => omega
      | succ f =>
          have h0 : svc attempt = none := hnone attempt le_rfl (by omega)
          have hs' : svc (attempt + 1 + k) = some s := by
            have he : attempt + 1 + k = attempt + (k + 1) := by omega
            rw [he]; exact hs
          have hrest := ih f (attempt + 1) s (by omega)
            (fun j h1 h2 => hnone j (by omega) (by omega)) hs'
          rw [call_haiku_loop_fail_step svc attempt f h0 (by omega), hrest]
          simp [List.range']

/-- C1: `call_haiku` makes at most 5 attempts; if all 5 attempts fail it
propagates the failure as fatal after sleeping exactly 1, 2, 4 and 8 seconds
after attempts 0 to 3; and a success on attempt `k` (with all earlier
attempts failing) returns that attempt's output immediately, the sleeps
performed being exactly `2 ^ 0, ..., 2 ^ (k-1)` — none after the success. -/
theorem call_haiku_retry_policy (svc : Nat → Option String) :
    (call_haiku svc).attempts ≤ 5
    ∧ ((∀ j, j < 5 → svc j = none) →
        call_haiku svc =
          { result := Except.error (), sleeps := [1, 2, 4, 8], attempts := 5 })
    ∧ (∀ k, k < 5 → (∀ j, j < k → svc j = none) → ∀ s, svc k = some s →
        call_haiku svc =
          { result := Except.ok s,
            sleeps := (List.range k).map (fun j => 2 ^ j),
            attempts := k + 1 }) := by
  refine ⟨call_haiku_loop_attempts_le svc 5 0, ?_, ?_⟩
  · intro hall
    have h := call_haiku_loop_all_fail svc 5 0 (by omega)
      (fun j h1 h2 => hall j (by omega))
    have hr : (List.range' 0 4).map (fun j => 2 ^ j) = [1, 2, 4, 8] := by decide
    simpa [call_haiku, hr] using h
  · intro k hk hnone s hs
    have h := call_haiku_loop_first_success svc k 5 0 s hk
      (fun j h1 h2 => hnone j (by omega)) (by simpa using hs)
    simpa [call_haiku, List.range_eq_range'] using h

/-- Witness for C1: with a service that fails every attempt, `call_haiku`
ends in the fatal error after 5 attempts with sleeps 1, 2, 4, 8; with a
service succeeding on attempt 2, it returns that output after 3 attempts
and sleeps 1, 2 only. -/
theorem call_haiku_retry_policy_witness :
    call_haiku (fun _ => none) =
      { result := Except.error (), sleeps := [1, 2, 4, 8], attempts := 5 }
    ∧ call_haiku (fun k => if k = 2 then some "out" else none) =
      { result := Except.ok "out", sleeps := [1, 2], attempts := 3 } := by
  constructor
  · exact (call_haiku_retry_policy (fun _ => none)).2.1 (fun j _ => rfl)
  · have h := (call_haiku_retry_policy
      (fun k => if k = 2 then some "out" else none)).2.2 2 (by omega)
      (fun j hj => by interval_cases j <;> rfl) "out" rfl
    simpa using h

end IloCompare
